import Mathlib

/-!
Verification development for the coordination core of project-genesis
(`agents/coordination/core/agent.py`, class `CoordinationAgent`).

The development shallowly embeds:
* the data model (`ProjectSpec`, task graph, execution plan, results,
  agent statuses) used by the coordinator;
* the task-graph builder `_plan_tasks` / `_plan_execution`;
* the execution engine `_execute_plan` / `_execute_sequential` /
  `_execute_parallel` (workers are external collaborators and are taken
  as parameters; Python exceptions are modelled with `Except`);
* the result validator `_validate_results`, the top-level `validate`
  wrapper, and the metrics generator `_generate_metrics`;
* a small-step cooperative-scheduling model of the semaphore-bounded
  Features phase, for the concurrency claims.

Machine floats in the source are modelled with `ℚ`; the concrete values
appearing in the statements below are exactly representable, so no
rounding behaviour is at issue.  Wall-clock timestamps are not modelled:
durations enter the model as inputs.
-/

/-- `AgentStatus` from `agents/shared/base_agent.py` (enum with seven
lifecycle states). -/
inductive AgentStatus where
  | idle
  | planning
  | executing
  | validating
  | completed
  | error
  | stopped
deriving DecidableEq, Repr

/-- The work payload carried under the `"task_spec"` key of a task node.
The Python side is a string-keyed dict; the coordinator only ever writes
the four keys modelled here (`_plan_tasks` writes `description`,
`project_type`, `feature_name`; `execute_with_limit` may write
`project_id`). -/
structure TaskPayload where
  description : String := ""
  project_type : Option String := none
  feature_name : Option String := none
  project_id : Option String := none
deriving DecidableEq, Repr

/-- One planned unit of work, as built by `_plan_tasks`: the `"agent"`
type tag, the optional `"feature_name"`, the dependency list, the
parallel-eligibility flag and the payload. -/
structure TaskNode where
  agent : String := ""
  feature_name : Option String := none
  dependencies : List String := []
  parallel : Bool := false
  task_spec : TaskPayload := {}
deriving DecidableEq, Repr

/-- The project specification consumed by `execute` / `_plan_tasks` /
`_plan_execution`: description, ordered feature names, optional type
hint, and `max_parallel` (a Python int, default 3 via
`task_spec.get("max_parallel", 3)`). -/
structure ProjectSpec where
  description : String := ""
  features : List String := []
  project_type : Option String := none
  max_parallel : Int := 3
deriving DecidableEq, Repr

/-- The task graph returned by `_plan_tasks`: one setup node plus the
list of feature nodes. -/
structure TaskGraph where
  setup : TaskNode
  features : List TaskNode
deriving DecidableEq, Repr

/-- One phase of the execution plan built by `_plan_execution`. -/
structure Phase where
  name : String
  parallel : Bool
  max_parallel : Option Int := none
  tasks : List TaskNode
deriving DecidableEq, Repr

/-- The execution plan built by `_plan_execution`: an ordered list of
phases. -/
structure ExecutionPlan where
  phases : List Phase
deriving DecidableEq, Repr

/-- The `"setup"` node literal of `_plan_tasks`: no dependencies,
`parallel = False`, payload embedding the description and type hint. -/
def setup_node (spec : ProjectSpec) : TaskNode :=
  { agent := "GenesisSetupAgent"
    dependencies := []
    parallel := false
    task_spec :=
      { description := spec.description
        project_type := spec.project_type } }

/-- The loop body of `_plan_tasks` building one feature node: depends on
`"setup"`, `parallel = True`, payload embedding the feature name and the
description `"Implement <feature>"`. -/
def feature_node (feature : String) : TaskNode :=
  { agent := "GenesisFeatureAgent"
    feature_name := some feature
    dependencies := ["setup"]
    parallel := true
    task_spec :=
      { feature_name := some feature
        description := "Implement " ++ feature } }

/-- `_plan_tasks` (agent.py lines 148-189): builds the task graph.  The
body has no failure path: it consists of dict construction and list
appends only. -/
def plan_tasks (spec : ProjectSpec) : TaskGraph :=
  { setup := setup_node spec
    features := spec.features.map feature_node }

/-- `_plan_execution` (agent.py lines 191-224): wraps the graph into two
phases, `"Setup"` (non-parallel) and `"Features"` (parallel, carrying
`max_parallel`).  Like `_plan_tasks` it has no failure path and performs
no validation of `max_parallel` or of the feature list. -/
def plan_execution (task_graph : TaskGraph) (spec : ProjectSpec) : ExecutionPlan :=
  let setupPhase : Phase :=
    { name := "Setup"
      parallel := false
      tasks := [task_graph.setup] }
  let featuresPhase : Phase :=
    { name := "Features"
      parallel := true
      max_parallel := some spec.max_parallel
      tasks := task_graph.features }
  { phases := [setupPhase, featuresPhase] }

/-- The whole builder: `_plan_tasks` followed by `_plan_execution`, as
invoked from `execute` (steps 1 and 2). -/
def build_plan (spec : ProjectSpec) : ExecutionPlan :=
  plan_execution (plan_tasks spec) spec

/-- The result record returned by a worker's `execute`; the engine only
ever reads the keys `"project_id"` (setup results, in `_execute_plan`)
and `"feature_name"` (feature results), each via `.get`, hence
optional. -/
structure ResultRecord where
  project_id : Option String := none
  feature_name : Option String := none
deriving DecidableEq, Repr

deriving instance DecidableEq for Except

/-- Python truthiness of an optional string (`if project_id:`): `None`
and `""` are falsy, every other string is truthy. -/
def pyTruthy : Option String → Bool
  | none => false
  | some s => !(s == "")

/-- Worker kinds spawned by the engine: `GenesisSetupAgent` in
`_execute_sequential`, `GenesisFeatureAgent` in `_execute_parallel`. -/
inductive WorkerKind where
  | setupKind
  | featureKind
deriving DecidableEq, Repr

/-- One entry of the coordinator's `managed_agents` registry: the
assigned agent id and the kind of worker constructed.  Entries are
listed in insertion order (Python dicts preserve it). -/
structure SpawnEvent where
  agent_id : String
  kind : WorkerKind
deriving DecidableEq, Repr

/-- The id `f"gsa-{n}"` assigned to a setup worker. -/
def gsaId (n : Nat) : String := "gsa-" ++ Nat.repr n

/-- The id `f"gfa-{n}"` assigned to a feature worker. -/
def gfaId (n : Nat) : String := "gfa-" ++ Nat.repr n

/-- `_execute_sequential` (agent.py lines 334-364), threading the
`managed_agents` registry explicitly.  For each task: if its `"agent"`
tag is `"GenesisSetupAgent"`, construct a worker with id
`f"gsa-{len(managed_agents) + 1}"`, register it, and run its `execute`
on the task payload; a raised exception propagates (there is no
try/except in the body).  A task with any other tag is silently skipped
(the `if` has no `else` branch).  The setup worker's behaviour is the
parameter `setupExec`. -/
def execute_sequential (setupExec : TaskPayload → Except String ResultRecord) :
    List TaskNode → List SpawnEvent → List ResultRecord →
    List SpawnEvent × Except String (List ResultRecord)
  | [], reg, acc => (reg, Except.ok acc)
  | task :: rest, reg, acc =>
    if task.agent = "GenesisSetupAgent" then
      let reg1 := reg ++ [⟨gsaId (reg.length + 1), WorkerKind.setupKind⟩]
      match setupExec task.task_spec with
      | Except.error e => (reg1, Except.error e)
      | Except.ok r => execute_sequential setupExec rest reg1 (acc ++ [r])
    else
      execute_sequential setupExec rest reg acc

/-- The payload mutation performed by `execute_with_limit` before
dispatch: `if project_id: task_spec["task_spec"]["project_id"] =
project_id` (Python truthiness guard). -/
def inject_project_id (pid : Option String) (p : TaskPayload) : TaskPayload :=
  if pyTruthy pid then { p with project_id := pid } else p

/-- Registry growth of `_execute_parallel`: every task, regardless of
its `"agent"` tag, gets a `GenesisFeatureAgent` constructed with id
`f"gfa-{len(managed_agents) + 1}"` and registered.  Registrations occur
in task-list order: `asyncio.gather` starts the coroutines in list
order, `asyncio.Semaphore` admits waiters FIFO, and the segment from
semaphore acquisition through the dict insertion contains no suspension
point (`BaseAgent.initialize` and `GenesisFeatureAgent.initialize`
contain no `await` expression that can yield), so each admission
computes its id and registers atomically. -/
def spawn_feature_workers : List TaskNode → List SpawnEvent → List SpawnEvent
  | [], reg => reg
  | _ :: rest, reg =>
    spawn_feature_workers rest (reg ++ [⟨gfaId (reg.length + 1), WorkerKind.featureKind⟩])

/-- The positional outcome list of `asyncio.gather(...,
return_exceptions=True)` over `[execute_with_limit(task) for task in
tasks]`: entry `i` is the outcome (result record or captured exception)
of task `i`'s worker on its (possibly project-id-injected) payload.  The
feature workers' behaviour is the parameter `w`, indexed by task
position. -/
def gather_outcomes (w : Nat → TaskPayload → Except String ResultRecord)
    (pid : Option String) (tasks : List TaskNode) : List (Except String ResultRecord) :=
  tasks.enum.map (fun p => w p.1 (inject_project_id pid p.2.task_spec))

/-- The exception-filtering loop at the end of `_execute_parallel`
(agent.py lines 324-332): keep the non-exception results, in order. -/
def filter_valid (results : List (Except String ResultRecord)) : List ResultRecord :=
  results.filterMap (fun r =>
    match r with
    | Except.ok v => some v
    | Except.error _ => none)

/-- `_execute_parallel` (agent.py lines 281-332): returns the grown
registry and the filtered result list.  `max_parallel` bounds how many
workers are simultaneously in flight (modelled separately by the
small-step `PoolStep` system below); it does not affect which results
are produced nor their order. -/
def execute_parallel (w : Nat → TaskPayload → Except String ResultRecord)
    (tasks : List TaskNode) (pid : Option String) (reg : List SpawnEvent) :
    List SpawnEvent × List ResultRecord :=
  (spawn_feature_workers tasks reg, filter_valid (gather_outcomes w pid tasks))

/-- Runtime errors the engine itself can raise: a worker exception
propagated out of `_execute_sequential`, or the `IndexError` from
`phase_result[0]` in `_execute_plan` when the Setup phase produced no
result. -/
inductive RunError where
  | workerError (msg : String)
  | indexError
deriving DecidableEq, Repr

/-- The accumulating `results` dict of `_execute_plan` (without the
wall-clock `duration` key, which is not modelled). -/
structure ExecResults where
  project_id : Option String := none
  features : List (Option String) := []
  phase_results : List (List ResultRecord) := []
deriving DecidableEq, Repr

/-- The per-phase update at the end of the `_execute_plan` loop body:
append the phase result, then `results["project_id"] =
phase_result[0].get("project_id")` for the phase named `"Setup"`
(raising `IndexError` on an empty result list), or `results["features"]
= [r.get("feature_name") for r in phase_result]` for `"Features"`. -/
def update_results (results : ExecResults) (phase : Phase)
    (phase_result : List ResultRecord) : Except RunError ExecResults :=
  let results1 :=
    { results with phase_results := results.phase_results ++ [phase_result] }
  if phase.name = "Setup" then
    match phase_result.head? with
    | none => Except.error RunError.indexError
    | some r => Except.ok { results1 with project_id := r.project_id }
  else if phase.name = "Features" then
    Except.ok { results1 with features := phase_result.map (fun r => r.feature_name) }
  else
    Except.ok results1

/-- The phase loop of `_execute_plan` (agent.py lines 250-274): parallel
phases go through `_execute_parallel` (receiving the current
`project_id`), non-parallel ones through `_execute_sequential`; any
exception propagates immediately, ending the loop. -/
def execute_phases (setupExec : TaskPayload → Except String ResultRecord)
    (w : Nat → TaskPayload → Except String ResultRecord) :
    List Phase → ExecResults → List SpawnEvent →
    List SpawnEvent × Except RunError ExecResults
  | [], results, reg => (reg, Except.ok results)
  | phase :: rest, results, reg =>
    if phase.parallel then
      let pr := execute_parallel w phase.tasks results.project_id reg
      match update_results results phase pr.2 with
      | Except.error e => (pr.1, Except.error e)
      | Except.ok results1 => execute_phases setupExec w rest results1 pr.1
    else
      match execute_sequential setupExec phase.tasks reg [] with
      | (reg1, Except.error e) => (reg1, Except.error (RunError.workerError e))
      | (reg1, Except.ok rs) =>
        match update_results results phase rs with
        | Except.error e => (reg1, Except.error e)
        | Except.ok results1 => execute_phases setupExec w rest results1 reg1

/-- `_execute_plan` (agent.py lines 230-279): run all phases starting
from the empty results dict and an empty registry.  The first component
is the final `managed_agents` registry (which persists even when an
exception propagates, since it lives on `self`); the second is the
normal return value or the propagated exception.  An exception raised
here also escapes the top-level `execute`, whose handler logs and
re-raises (`raise`, agent.py line 116). -/
def execute_plan (setupExec : TaskPayload → Except String ResultRecord)
    (w : Nat → TaskPayload → Except String ResultRecord) (plan : ExecutionPlan) :
    List SpawnEvent × Except RunError ExecResults :=
  execute_phases setupExec w plan.phases {} []

/-- The validation report built by `_validate_results` (the
`failed_agent` key is only set when some agent did not complete). -/
structure ValidationReport where
  project_created : Bool
  features_completed : Nat
  all_agents_succeeded : Bool
  failed_agent : Option String := none
deriving DecidableEq, Repr

/-- `_validate_results` (agent.py lines 370-395): a read-only summary of
the execution result and the `managed_agents` registry (given here as a
list of id/status pairs in dict iteration order).  The loop sets
`all_agents_succeeded = False` and overwrites `failed_agent` for every
agent whose status differs from `COMPLETED`. -/
def validate_results (execution_result : ExecResults)
    (agents : List (String × AgentStatus)) : ValidationReport :=
  let v0 : ValidationReport :=
    { project_created := execution_result.project_id.isSome
      features_completed := execution_result.features.length
      all_agents_succeeded := true }
  agents.foldl (fun v a =>
    if a.2 ≠ AgentStatus.completed then
      { v with all_agents_succeeded := false, failed_agent := some a.1 }
    else v) v0

/-- The metrics record returned by `_generate_metrics`. -/
structure Metrics where
  total_time_seconds : ℚ
  estimated_sequential_seconds : ℚ
  speedup : ℚ
  features_count : Nat
  agents_used : Nat
deriving DecidableEq, Repr

/-- `_generate_metrics` (agent.py lines 397-427): the sequential
baseline is `15 * 60 + features_count * 30 * 60` seconds and the
speedup is `estimated_sequential / total_time if total_time > 0 else
1.0`. -/
def generate_metrics (spec : ProjectSpec) (duration : ℚ) (agents_used : Nat) : Metrics :=
  let features_count := spec.features.length
  let estimated_sequential : ℚ := 15 * 60 + features_count * 30 * 60
  let speedup : ℚ := if 0 < duration then estimated_sequential / duration else 1
  { total_time_seconds := duration
    estimated_sequential_seconds := estimated_sequential
    speedup := speedup
    features_count := features_count
    agents_used := agents_used }

/-- The result dict assembled by the top-level `execute` (agent.py lines
99-106), restricted to the keys the `validate` wrapper reads, plus the
`validation` report (carried to express that `validate` ignores it). -/
structure TopResult where
  project_id : Option String := none
  features_completed : List (Option String) := []
  parallel_speedup : ℚ := 1
  validation : ValidationReport
deriving DecidableEq, Repr

/-- The caller-facing `validate` wrapper (agent.py lines 118-142):
`False` when `result.get("project_id")` is falsy (None or the empty
string), `False` when the completed-features list is empty, otherwise
`True` (the speedup check only logs a warning and never changes the
outcome). -/
def validate (result : TopResult) : Bool :=
  if !(pyTruthy result.project_id) then false
  else if result.features_completed.isEmpty then false
  else true

/-- The payload actually handed to the feature worker of the feature
named `feature`: the node payload built by `_plan_tasks`, after the
`project_id` injection of `execute_with_limit`. -/
def feature_payload (pid : Option String) (feature : String) : TaskPayload :=
  inject_project_id pid (feature_node feature).task_spec

/-!
### Completion-order model of `asyncio.gather` result placement

`asyncio.gather` pre-allocates one result slot per child coroutine and
writes each child's outcome into its own slot when that child finishes,
in whatever order the children finish; the assembled list is read off in
slot order afterwards.  `place_results` is that mechanism: `order` is
the finish order (a permutation of the task positions), and each finish
event writes the finished task's outcome `v i` into slot `i`.
-/

/-- Process finish events in completion order, writing each outcome into
the finishing task's own slot. -/
def place_results (v : Nat → α) : List Nat → List (Option α) → List (Option α)
  | [], slots => slots
  | i :: rest, slots => place_results v rest (slots.set i (some (v i)))

/-- The assembled gather output for `n` tasks with outcomes `v`,
finishing in order `order`, starting from `n` empty slots. -/
def gather_by_completion (n : Nat) (v : Nat → α) (order : List Nat) : List (Option α) :=
  place_results v order (List.replicate n none)

/-!
### Small-step model of the semaphore-bounded Features phase

`_execute_parallel` wraps every task in `execute_with_limit`, which
enters `async with semaphore` (an `asyncio.Semaphore(max_parallel)`)
before constructing, registering and running the task's feature worker,
and leaves it when the worker finishes or raises.  Under asyncio's
cooperative scheduling this is the transition system below: a task moves
from `waiting` to `running` only when fewer than `k` tasks are running
(semaphore admission; FIFO, so only the head of `waiting` is admitted),
and from `running` to `finished` when its worker completes.  Admission
atomically appends the new worker's registry entry, whose id is computed
from the current registry size: the code between the semaphore
acquisition and the `managed_agents` insertion contains no suspension
point, because neither `BaseAgent.initialize` nor
`GenesisFeatureAgent.initialize` ever awaits a yielding operation.
-/

/-- A state of the Features phase under the bounded pool: the tasks not
yet admitted (in input order), the in-flight tasks, the finished tasks,
and the `managed_agents` registry. -/
structure PoolState where
  waiting : List Nat
  running : List Nat
  finished : List Nat
  registry : List SpawnEvent
deriving DecidableEq, Repr

/-- The start state: all `n` tasks waiting, none in flight, registry as
left by the Setup phase. -/
def poolInit (n : Nat) (reg : List SpawnEvent) : PoolState :=
  { waiting := List.range n
    running := []
    finished := []
    registry := reg }

/-- One scheduler step of the bounded pool with semaphore value `k`
(`max_parallel`): either admit the next waiting task (only possible when
fewer than `k` are in flight; this constructs and registers its feature
worker), or finish any in-flight task (its worker returned or raised,
releasing the semaphore slot). -/
inductive PoolStep (k : Nat) : PoolState → PoolState → Prop
  | acquire (i : Nat) (rest : List Nat) (s : PoolState)
      (hw : s.waiting = i :: rest) (hk : s.running.length < k) :
      PoolStep k s
        { waiting := rest
          running := s.running ++ [i]
          finished := s.finished
          registry :=
            s.registry ++ [⟨gfaId (s.registry.length + 1), WorkerKind.featureKind⟩] }
  | finish (i : Nat) (l r : List Nat) (s : PoolState)
      (hr : s.running = l ++ i :: r) :
      PoolStep k s
        { waiting := s.waiting
          running := l ++ r
          finished := s.finished ++ [i]
          registry := s.registry }

/-- Reachability from the start state of an `n`-task Features phase with
concurrency limit `k` and initial registry `reg`. -/
def PoolReachable (k n : Nat) (reg : List SpawnEvent) (s : PoolState) : Prop :=
  Relation.ReflTransGen (PoolStep k) (poolInit n reg) s

/-- The numeric value of a decimal digit string, used to show that
`Nat.repr` (the f-string rendering of the worker counter) is injective,
so distinct counters yield distinct agent ids. -/
def decimalVal (l : List Char) : Nat :=
  l.foldl (fun a c => 10 * a + (c.toNat - 48)) 0

/-!
## Helper lemmas

### Injectivity of the decimal rendering used in agent ids
-/

lemma digitChar_decode : ∀ d < 10, (Nat.digitChar d).toNat - 48 = d := by decide

lemma toDigitsCore_append10 : ∀ (fuel n : Nat) (ds : List Char),
    Nat.toDigitsCore 10 fuel n ds = Nat.toDigitsCore 10 fuel n [] ++ ds := by
  intro fuel
  induction fuel with
  | zero => intro n ds; simp [Nat.toDigitsCore]
  | succ f ih =>
    intro n ds
    by_cases h : n / 10 = 0
    · simp [Nat.toDigitsCore, h]
    · simp only [Nat.toDigitsCore, h, if_false]
      rw [ih (n / 10) (Nat.digitChar (n % 10) :: ds), ih (n / 10) [Nat.digitChar (n % 10)]]
      simp

lemma decimalVal_append (l : List Char) (c : Char) :
    decimalVal (l ++ [c]) = 10 * decimalVal l + (c.toNat - 48) := by
  simp [decimalVal, List.foldl_append]

lemma decimalVal_toDigitsCore : ∀ (fuel n : Nat), n < fuel →
    decimalVal (Nat.toDigitsCore 10 fuel n []) = n := by
  intro fuel
  induction fuel with
  | zero => intro n hn; omega
  | succ f ih =>
    intro n hn
    have hmod : n % 10 < 10 := Nat.mod_lt _ (by norm_num)
    have hdig := digitChar_decode (n % 10) hmod
    by_cases h : n / 10 = 0
    · simp only [Nat.toDigitsCore, h, if_true]
      have hv : decimalVal [Nat.digitChar (n % 10)] = (Nat.digitChar (n % 10)).toNat - 48 := by
        simp [decimalVal]
      rw [hv, hdig]
      omega
    · simp only [Nat.toDigitsCore, h, if_false]
      rw [toDigitsCore_append10, decimalVal_append]
      have hpos : 0 < n := by
        rcases Nat.eq_zero_or_pos n with h0 | h0
        · subst h0; simp at h
        · exact h0
      have hlt : n / 10 < n := Nat.div_lt_self hpos (by norm_num)
      rw [ih (n / 10) (by omega), hdig]
      omega

lemma repr_injective : Function.Injective Nat.repr := by
  intro m n h
  have hd : Nat.toDigits 10 m = Nat.toDigits 10 n := by
    have h2 := congrArg String.data h
    simpa [Nat.repr, List.asString] using h2
  have hm := decimalVal_toDigitsCore (m + 1) m (Nat.lt_succ_self m)
  have hn := decimalVal_toDigitsCore (n + 1) n (Nat.lt_succ_self n)
  rw [Nat.toDigits] at hd
  rw [← hm, ← hn, hd]
  rfl

lemma gfaId_injective {a b : Nat} (h : gfaId a = gfaId b) : a = b := by
  have hd := congrArg String.data h
  simp only [gfaId, String.data_append] at hd
  have h2 := List.append_cancel_left hd
  have h3 : Nat.repr a = Nat.repr b := by
    cases ha : Nat.repr a with
    | mk la =>
      cases hb : Nat.repr b with
      | mk lb =>
        rw [ha, hb] at h2
        simp at h2
        rw [h2]
  exact repr_injective h3

lemma gsaId_ne_gfaId (a b : Nat) : gsaId a ≠ gfaId b := by
  intro h
  have hd := congrArg String.data h
  simp only [gsaId, gfaId, String.data_append] at hd
  simp at hd

/-!
### Invariants of the bounded pool
-/

lemma poolReachable_running_le (k n : Nat) (reg : List SpawnEvent) (s : PoolState)
    (h : PoolReachable k n reg s) : s.running.length ≤ k := by
  induction h with
  | refl => simp [poolInit]
  | tail hab hstep ih =>
    cases hstep with
    | acquire i rest t hw hk =>
      simp only [List.length_append, List.length_cons, List.length_nil]
      omega
    | finish i l r t hr =>
      rw [hr] at ih
      simp only [List.length_append, List.length_cons] at ih ⊢
      omega

lemma poolReachable_registry (k n : Nat) (reg : List SpawnEvent) (s : PoolState)
    (h : PoolReachable k n reg s) :
    s.waiting.length ≤ n ∧
    s.registry = reg ++ (List.range' (reg.length + 1) (n - s.waiting.length)).map
        (fun j => ⟨gfaId j, WorkerKind.featureKind⟩) := by
  induction h with
  | refl => simp [poolInit]
  | @tail b c hab hstep ih =>
    obtain ⟨ihl, ihr⟩ := ih
    cases hstep with
    | finish i l r t hr => exact ⟨ihl, ihr⟩
    | acquire i rest t hw hk =>
      have hlen : b.waiting.length = rest.length + 1 := by rw [hw]; simp
      have hreg_len : b.registry.length = reg.length + (n - b.waiting.length) := by
        rw [ihr]; simp
      refine ⟨?_, ?_⟩
      · show rest.length ≤ n
        omega
      · show b.registry ++ [⟨gfaId (b.registry.length + 1), WorkerKind.featureKind⟩]
            = reg ++ (List.range' (reg.length + 1) (n - rest.length)).map
                (fun j => ⟨gfaId j, WorkerKind.featureKind⟩)
        have hc : n - rest.length = (n - b.waiting.length) + 1 := by omega
        rw [ihr, hc, List.range'_concat]
        simp only [List.map_append, List.map_cons, List.map_nil]
        rw [List.append_assoc]
        have hid : reg.length + 1 + 1 * (n - b.waiting.length) = b.registry.length + 1 := by
          rw [hreg_len]; ring
        rw [hid, ihr]

/-- C2 body, shared shape: safety bound plus admission enabledness. -/
theorem poolstep_exists_acquire (k : Nat) (s : PoolState) (i : Nat) (rest : List Nat)
    (hw : s.waiting = i :: rest) (hk : s.running.length < k) :
    ∃ s2, PoolStep k s s2 ∧ s2.running.length = s.running.length + 1 := by
  refine ⟨_, PoolStep.acquire i rest s hw hk, ?_⟩
  simp

/-!
## Claim theorems: concurrency (C2) and worker identities (C5)
-/

/-- C2: during the parallel Features phase, every reachable state of the
semaphore-bounded pool with limit `k ≥ 1` has at most `k` feature
workers in flight; moreover whenever tasks remain waiting, either a
further task can be admitted at once (when fewer than `k` are in
flight), or exactly `k` are in flight — so while tasks remain the pool
never settles below `k` concurrent workers. -/
theorem features_phase_bounded_concurrency (k n : Nat) (reg : List SpawnEvent)
    (s : PoolState) (hk : 1 ≤ k) (h : PoolReachable k n reg s) :
    s.running.length ≤ k
    ∧ (s.waiting ≠ [] → s.running.length < k →
        ∃ s2, PoolStep k s s2 ∧ s2.running.length = s.running.length + 1)
    ∧ (s.waiting ≠ [] → ¬ s.running.length < k → s.running.length = k) := by
  have hle := poolReachable_running_le k n reg s h
  refine ⟨hle, ?_, ?_⟩
  · intro hw hlt
    match hwe : s.waiting with
    | [] => exact absurd hwe hw
    | i :: rest => exact poolstep_exists_acquire k s i rest hwe hlt
  · intro _ hge
    omega

/-- Witness for C2: with `k = 2` and `n = 5`, the state reached after
admitting tasks 0 and 1 is reachable, and the theorem bounds its
in-flight count by 2. -/
theorem features_phase_bounded_concurrency_witness :
    1 ≤ 2
    ∧ PoolReachable 2 5 []
        { waiting := [2, 3, 4], running := [0, 1], finished := [],
          registry := [⟨gfaId 1, WorkerKind.featureKind⟩, ⟨gfaId 2, WorkerKind.featureKind⟩] }
    ∧ ({ waiting := [2, 3, 4], running := [0, 1], finished := [],
         registry := [⟨gfaId 1, WorkerKind.featureKind⟩, ⟨gfaId 2, WorkerKind.featureKind⟩] } :
         PoolState).running.length ≤ 2 := by
  have h0 : PoolReachable 2 5 [] (poolInit 5 []) := Relation.ReflTransGen.refl
  have h1 := Relation.ReflTransGen.tail h0
    (PoolStep.acquire 0 [1, 2, 3, 4] (poolInit 5 []) (by decide) (by decide))
  have h2 := Relation.ReflTransGen.tail h1
    (PoolStep.acquire 1 [2, 3, 4] _ (by decide) (by decide))
  exact ⟨by decide, h2, (features_phase_bounded_concurrency 2 5 [] _ (by decide) h2).1⟩

/-- C5: starting from the registry left by the Setup phase (the single
setup worker `"gsa-1"`), every reachable state of the Features-phase
pool has registry exactly `"gsa-1"` followed by `"gfa-2", "gfa-3", ...`
— one entry per admitted worker, with the numeric suffix incrementing
per worker spawned across the whole run — and all registry keys are
distinct, whatever interleaving of admissions and completions occurred;
once all `n` tasks have been admitted the registry holds exactly `n + 1`
entries. -/
theorem worker_ids_unique (k n : Nat) (s : PoolState)
    (h : PoolReachable k n [⟨gsaId 1, WorkerKind.setupKind⟩] s) :
    s.registry
        = ⟨gsaId 1, WorkerKind.setupKind⟩ ::
            (List.range' 2 (n - s.waiting.length)).map
              (fun j => ⟨gfaId j, WorkerKind.featureKind⟩)
    ∧ (s.registry.map SpawnEvent.agent_id).Nodup
    ∧ (s.waiting = [] → s.registry.length = n + 1) := by
  obtain ⟨hwl, hreg⟩ := poolReachable_registry k n [⟨gsaId 1, WorkerKind.setupKind⟩] s h
  have hshape : s.registry
      = ⟨gsaId 1, WorkerKind.setupKind⟩ ::
          (List.range' 2 (n - s.waiting.length)).map
            (fun j => ⟨gfaId j, WorkerKind.featureKind⟩) := by
    simpa using hreg
  refine ⟨hshape, ?_, ?_⟩
  · rw [hshape]
    simp only [List.map_cons, List.map_map]
    refine List.nodup_cons.mpr ⟨?_, ?_⟩
    · intro hmem
      simp only [List.mem_map, Function.comp] at hmem
      obtain ⟨j, hj, hje⟩ := hmem
      exact gsaId_ne_gfaId 1 j hje.symm
    · refine List.Nodup.map ?_ (List.nodup_range' _ _)
      intro a b hab
      exact gfaId_injective hab
  · intro hw
    rw [hshape, hw]
    simp

/-- Witness for C5: with `k = 2`, `n = 2` and the post-Setup registry
`["gsa-1"]`, the state after both (concurrent) admissions is reachable
and the theorem yields distinct registry keys `gsa-1, gfa-2, gfa-3`. -/
theorem worker_ids_unique_witness :
    PoolReachable 2 2 [⟨gsaId 1, WorkerKind.setupKind⟩]
        { waiting := [], running := [0, 1], finished := [],
          registry := [⟨gsaId 1, WorkerKind.setupKind⟩, ⟨gfaId 2, WorkerKind.featureKind⟩,
                       ⟨gfaId 3, WorkerKind.featureKind⟩] }
    ∧ (([⟨gsaId 1, WorkerKind.setupKind⟩, ⟨gfaId 2, WorkerKind.featureKind⟩,
         ⟨gfaId 3, WorkerKind.featureKind⟩] : List SpawnEvent).map SpawnEvent.agent_id).Nodup := by
  have h0 : PoolReachable 2 2 [⟨gsaId 1, WorkerKind.setupKind⟩]
      (poolInit 2 [⟨gsaId 1, WorkerKind.setupKind⟩]) := Relation.ReflTransGen.refl
  have h1 := Relation.ReflTransGen.tail h0
    (PoolStep.acquire 0 [1] (poolInit 2 [⟨gsaId 1, WorkerKind.setupKind⟩]) (by decide) (by decide))
  have h2 := Relation.ReflTransGen.tail h1
    (PoolStep.acquire 1 [] _ (by decide) (by decide))
  exact ⟨h2, (worker_ids_unique 2 2 _ h2).2.1⟩

/-!
### Gather placement, filtering and enumeration helpers
-/

lemma place_results_length (v : Nat → α) :
    ∀ (order : List Nat) (slots : List (Option α)),
      (place_results v order slots).length = slots.length := by
  intro order
  induction order with
  | nil => intro slots; rfl
  | cons i rest ih =>
    intro slots
    simp [place_results, ih]

lemma place_results_getElem?_not_mem (v : Nat → α) :
    ∀ (order : List Nat) (slots : List (Option α)) (j : Nat), j ∉ order →
      (place_results v order slots)[j]? = slots[j]? := by
  intro order
  induction order with
  | nil => intro slots j _; rfl
  | cons i rest ih =>
    intro slots j hj
    simp only [List.mem_cons, not_or] at hj
    rw [place_results, ih _ _ hj.2, List.getElem?_set]
    simp [Ne.symm hj.1]

lemma place_results_getElem?_mem (v : Nat → α) :
    ∀ (order : List Nat) (slots : List (Option α)) (j : Nat), j ∈ order → j < slots.length →
      (place_results v order slots)[j]? = some (some (v j)) := by
  intro order
  induction order with
  | nil => intro slots j hj _; simp at hj
  | cons i rest ih =>
    intro slots j hj hlen
    by_cases hmem : j ∈ rest
    · rw [place_results, ih _ _ hmem (by simp [hlen])]
    · have hij : j = i := by
        rcases List.mem_cons.mp hj with h | h
        · exact h
        · exact absurd h hmem
      subst hij
      rw [place_results, place_results_getElem?_not_mem v rest _ _ hmem, List.getElem?_set]
      simp [hlen]

lemma gather_by_completion_perm (n : Nat) (v : Nat → α) (order : List Nat)
    (hperm : order.Perm (List.range n)) :
    gather_by_completion n v order = (List.range n).map (fun j => some (v j)) := by
  apply List.ext_getElem?
  intro j
  by_cases hj : j < n
  · rw [gather_by_completion, place_results_getElem?_mem v order _ j
      (hperm.mem_iff.mpr (List.mem_range.mpr hj)) (by simp [hj]),
      List.getElem?_map, List.getElem?_range hj]
    rfl
  · have h1 : (place_results v order (List.replicate n none))[j]? = none := by
      apply List.getElem?_eq_none
      rw [place_results_length]
      simpa using Nat.le_of_not_lt hj
    have h2 : ((List.range n).map (fun j => some (v j)))[j]? = none := by
      apply List.getElem?_eq_none
      simpa using Nat.le_of_not_lt hj
    rw [gather_by_completion, h1, h2]

lemma filterMap_eq_map_of (l : List γ) (f : γ → Option β) (g : γ → β)
    (h : ∀ x ∈ l, f x = some (g x)) : l.filterMap f = l.map g := by
  induction l with
  | nil => rfl
  | cons a as ih =>
    rw [List.filterMap_cons, h a (List.mem_cons_self a as), List.map_cons,
        ih (fun x hx => h x (List.mem_cons_of_mem a hx))]

lemma filterMap_eq_filter_map_of (l : List γ) (f : γ → Option β) (g : γ → β) (q : γ → Bool)
    (h : ∀ x ∈ l, if q x then f x = some (g x) else f x = none) :
    l.filterMap f = (l.filter q).map g := by
  induction l with
  | nil => rfl
  | cons a as ih =>
    have ha := h a (List.mem_cons_self a as)
    have ih2 := ih (fun x hx => h x (List.mem_cons_of_mem a hx))
    rw [List.filterMap_cons, List.filter_cons]
    by_cases hq : q a = true
    · simp only [hq, if_true] at ha ⊢
      rw [ha, List.map_cons, ih2]
    · have hq2 : q a = false := by simpa using hq
      simp only [hq2, if_false, Bool.false_eq_true] at ha ⊢
      rw [ha, ih2]

lemma enumFrom_filter_ne_map_snd (i : Nat) :
    ∀ (fs : List α) (k : Nat), k ≤ i →
      ((List.enumFrom k fs).filter (fun p => decide (p.1 ≠ i))).map Prod.snd
        = fs.eraseIdx (i - k) := by
  intro fs
  induction fs with
  | nil => intro k _; rfl
  | cons a as ih =>
    intro k hki
    rw [List.enumFrom_cons, List.filter_cons]
    by_cases hk : k = i
    · subst hk
      have hfalse : (decide (k ≠ k)) = false := by simp
      rw [hfalse]
      simp only [Bool.false_eq_true, if_false]
      have hall : (List.enumFrom (k + 1) as).filter (fun p => decide (p.1 ≠ k))
          = List.enumFrom (k + 1) as := by
        apply List.filter_eq_self.mpr
        intro p hp
        obtain ⟨p1, p2⟩ := p
        have hle := (List.mem_enumFrom hp).1
        simp only [decide_eq_true_eq]
        omega
      rw [hall, List.enumFrom_map_snd]
      simp
    · have hlt : k < i := lt_of_le_of_ne hki hk
      have hne : (decide (k ≠ i)) = true := by simp [hk]
      simp only [hne, if_true]
      rw [List.map_cons, ih (k + 1) (by omega)]
      have hidx : i - k = (i - (k + 1)) + 1 := by omega
      rw [hidx, List.eraseIdx_cons_succ]

lemma enum_mem_facts {fs : List α} {p : Nat × α} (hp : p ∈ fs.enum) :
    p.1 < fs.length ∧ fs[p.1]? = some p.2 := by
  obtain ⟨p1, p2⟩ := p
  have h := List.mem_enumFrom hp
  obtain ⟨-, hlt, hval⟩ := h
  simp only [Nat.zero_add] at hlt
  refine ⟨hlt, ?_⟩
  rw [List.getElem?_eq_getElem hlt]
  simp only [Nat.sub_zero] at hval
  rw [hval]

lemma enum_map_fst_fun (fs : List α) (g : Nat → β) :
    fs.enum.map (fun p => g p.1) = (List.range fs.length).map g := by
  have h1 : fs.enum.map (fun p => g p.1) = (fs.enum.map Prod.fst).map g := by
    rw [List.map_map]
    rfl
  rw [h1, List.enum_map_fst]

lemma gather_outcomes_map_node (w : Nat → TaskPayload → Except String ResultRecord)
    (pid : Option String) (fs : List String) :
    gather_outcomes w pid (fs.map feature_node)
      = fs.enum.map (fun p => w p.1 (feature_payload pid p.2)) := by
  simp only [gather_outcomes, List.enum_map, List.map_map]
  apply List.map_congr_left
  intro p _
  obtain ⟨a, b⟩ := p
  rfl

lemma filter_valid_map (l : List γ) (F : γ → Except String ResultRecord) :
    filter_valid (l.map F) = l.filterMap (fun x =>
      match F x with
      | Except.ok v => some v
      | Except.error _ => none) := by
  rw [filter_valid, List.filterMap_map]
  rfl

/-!
### Evaluation of the engine on plans built by the builder
-/

lemma execute_plan_build_ok (spec : ProjectSpec)
    (setupExec : TaskPayload → Except String ResultRecord)
    (w : Nat → TaskPayload → Except String ResultRecord) (s0 : ResultRecord)
    (hsetup : setupExec (setup_node spec).task_spec = Except.ok s0) :
    execute_plan setupExec w (build_plan spec)
      = (spawn_feature_workers (spec.features.map feature_node)
           [⟨gsaId 1, WorkerKind.setupKind⟩],
         Except.ok
           { project_id := s0.project_id
             features := (filter_valid (gather_outcomes w s0.project_id
                 (spec.features.map feature_node))).map (fun r => r.feature_name)
             phase_results := [[s0],
               filter_valid (gather_outcomes w s0.project_id
                 (spec.features.map feature_node))] }) := by
  have hsetup2 : setupExec
      { description := spec.description, project_type := spec.project_type } = Except.ok s0 :=
    hsetup
  simp [execute_plan, build_plan, plan_execution, plan_tasks, execute_phases,
        execute_sequential, setup_node, hsetup2, update_results, execute_parallel]

/-!
## Claim theorems: error handling and ordering of the engine (C1, C3, C4)
-/

/-- C1 (amended): when the one Setup-phase task's worker raises, the
exception propagates out of `_execute_sequential` and `_execute_plan`
(and is re-raised by `execute`): the run raises rather than returning a
result, and the registry still holds only the setup worker — no feature
worker is ever constructed. -/
theorem setup_failure_propagates (spec : ProjectSpec)
    (setupExec : TaskPayload → Except String ResultRecord)
    (w : Nat → TaskPayload → Except String ResultRecord) (msg : String)
    (hfail : setupExec (setup_node spec).task_spec = Except.error msg) :
    execute_plan setupExec w (build_plan spec)
      = ([⟨gsaId 1, WorkerKind.setupKind⟩], Except.error (RunError.workerError msg)) := by
  have hfail2 : setupExec
      { description := spec.description, project_type := spec.project_type }
      = Except.error msg := hfail
  simp [execute_plan, build_plan, plan_execution, plan_tasks, execute_phases,
        execute_sequential, setup_node, hfail2]

/-- Counterexample to C1 as stated: for a plan whose single setup task's
worker raises, `run` does not terminate normally — at this concrete
input the engine propagates the exception instead of returning a result
with `project_id = None` and `features = []`. -/
theorem setup_failure_cex :
    (execute_plan (fun _ => Except.error "boom")
        (fun _ _ => Except.ok ({} : ResultRecord))
        (build_plan { features := ["auth"] })).2
      = Except.error (RunError.workerError "boom") := rfl

/-- Witness for C1 (amended) at a concrete input. -/
theorem setup_failure_propagates_witness :
    (fun _ : TaskPayload => (Except.error "kaput" : Except String ResultRecord))
        (setup_node { features := ["auth", "billing"] }).task_spec = Except.error "kaput"
    ∧ execute_plan (fun _ => Except.error "kaput")
        (fun _ _ => Except.ok ({} : ResultRecord))
        (build_plan { features := ["auth", "billing"] })
      = ([⟨gsaId 1, WorkerKind.setupKind⟩], Except.error (RunError.workerError "kaput")) :=
  ⟨rfl, setup_failure_propagates { features := ["auth", "billing"] } _ _ "kaput" rfl⟩

/-- C3: feature-task failures are isolated.  If the setup worker
succeeds and, in the Features phase, task `i`'s worker raises while
every other task's worker returns a record carrying its own feature
name, then the run returns normally (no exception) and
`ExecutionResult.features` is exactly the input feature list with entry
`i` removed — every other task still contributes its result. -/
theorem feature_failure_isolated (spec : ProjectSpec)
    (setupExec : TaskPayload → Except String ResultRecord)
    (w : Nat → TaskPayload → Except String ResultRecord) (s0 : ResultRecord)
    (rres : Nat → ResultRecord) (i : Nat) (msg : String)
    (hsetup : setupExec (setup_node spec).task_spec = Except.ok s0)
    (hi : i < spec.features.length)
    (hfail : w i (feature_payload s0.project_id (spec.features.getD i ""))
      = Except.error msg)
    (hok : ∀ j, j < spec.features.length → j ≠ i →
      w j (feature_payload s0.project_id (spec.features.getD j "")) = Except.ok (rres j))
    (hname : ∀ j, j < spec.features.length → j ≠ i →
      (rres j).feature_name = spec.features[j]?) :
    ∃ res, (execute_plan setupExec w (build_plan spec)).2 = Except.ok res
      ∧ res.features = (spec.features.eraseIdx i).map some := by
  rw [execute_plan_build_ok spec setupExec w s0 hsetup]
  refine ⟨_, rfl, ?_⟩
  show (filter_valid (gather_outcomes w s0.project_id
      (spec.features.map feature_node))).map (fun r => r.feature_name)
    = (spec.features.eraseIdx i).map some
  rw [gather_outcomes_map_node, filter_valid_map]
  rw [filterMap_eq_filter_map_of _ _ (fun p => rres p.1) (fun p => decide (p.1 ≠ i)) ?hpt]
  case hpt =>
    intro p hp
    obtain ⟨hplt, hpv⟩ := enum_mem_facts hp
    have hgd : spec.features.getD p.1 "" = p.2 := by
      rw [List.getD_eq_getElem?_getD, hpv]
      rfl
    by_cases hpi : p.1 = i
    · have hq : (decide (p.1 ≠ i)) = false := by simp [hpi]
      simp only [hq, Bool.false_eq_true, if_false]
      rw [hpi] at hgd
      rw [← hgd, hpi, hfail]
    · have hq : (decide (p.1 ≠ i)) = true := by simp [hpi]
      simp only [hq, if_true]
      rw [← hgd, hok p.1 hplt hpi]
  · rw [List.map_map]
    have hvals : (spec.features.enum.filter (fun p => decide (p.1 ≠ i))).map
          ((fun r => r.feature_name) ∘ (fun p => rres p.1))
        = (spec.features.enum.filter (fun p => decide (p.1 ≠ i))).map (fun p => some p.2) := by
      apply List.map_congr_left
      intro p hp
      have hfilter := List.of_mem_filter hp
      obtain ⟨hplt, hpv⟩ := enum_mem_facts (List.mem_of_mem_filter hp)
      have hpne : p.1 ≠ i := by simpa using hfilter
      show (rres p.1).feature_name = some p.2
      rw [hname p.1 hplt hpne, hpv]
    rw [hvals]
    have hcomp : (spec.features.enum.filter (fun p => decide (p.1 ≠ i))).map
          (fun p => some p.2)
        = ((spec.features.enum.filter (fun p => decide (p.1 ≠ i))).map Prod.snd).map some := by
      rw [List.map_map]
      rfl
    rw [hcomp]
    have herase := enumFrom_filter_ne_map_snd i spec.features 0 (Nat.zero_le i)
    simp only [Nat.sub_zero] at herase
    show ((List.enumFrom 0 spec.features |>.filter
        (fun p => decide (p.1 ≠ i))).map Prod.snd).map some = _
    rw [herase]

/-- Witness for C3: three features, task 1 forced to raise — the result
contains features "a" and "c" only, in order. -/
theorem feature_failure_isolated_witness :
    (1 : Nat) < 3
    ∧ ∃ res, (execute_plan (fun _ => Except.ok ⟨some "p1", none⟩)
          (fun j p => if j = 1 then Except.error "boom" else Except.ok ⟨none, p.feature_name⟩)
          (build_plan { features := ["a", "b", "c"] })).2 = Except.ok res
        ∧ res.features = ((["a", "b", "c"] : List String).eraseIdx 1).map some := by
  refine ⟨by decide, ?_⟩
  exact feature_failure_isolated { features := ["a", "b", "c"] }
    (fun _ => Except.ok ⟨some "p1", none⟩)
    (fun j p => if j = 1 then Except.error "boom" else Except.ok ⟨none, p.feature_name⟩)
    ⟨some "p1", none⟩
    (fun j => ⟨none, some ((["a", "b", "c"] : List String).getD j "")⟩) 1 "boom"
    rfl (by decide) (by decide) (by decide) (by decide)

/-- C4: result placement is order-stable.  First conjunct: the
slot-placement mechanism of `asyncio.gather` yields the same output list
for every completion order (any permutation of the task positions) —
namely the outcomes in input order.  Second conjunct: when all feature
workers succeed, `ExecutionResult.features` lists the feature names in
exactly the input order, and the per-phase result list holds the worker
records in input order. -/
theorem order_stable_output (spec : ProjectSpec)
    (setupExec : TaskPayload → Except String ResultRecord)
    (w : Nat → TaskPayload → Except String ResultRecord) (s0 : ResultRecord)
    (rres : Nat → ResultRecord) (order : List Nat)
    (hsetup : setupExec (setup_node spec).task_spec = Except.ok s0)
    (hok : ∀ j, j < spec.features.length →
      w j (feature_payload s0.project_id (spec.features.getD j "")) = Except.ok (rres j))
    (hname : ∀ j, j < spec.features.length → (rres j).feature_name = spec.features[j]?)
    (hperm : order.Perm (List.range spec.features.length)) :
    gather_by_completion spec.features.length
        (fun j => w j (feature_payload s0.project_id (spec.features.getD j ""))) order
      = (List.range spec.features.length).map
          (fun j => some (w j (feature_payload s0.project_id (spec.features.getD j ""))))
    ∧ (execute_plan setupExec w (build_plan spec)).2
      = Except.ok
          { project_id := s0.project_id
            features := spec.features.map some
            phase_results := [[s0], (List.range spec.features.length).map rres] } := by
  constructor
  · exact gather_by_completion_perm _ _ order hperm
  · rw [execute_plan_build_ok spec setupExec w s0 hsetup]
    have hvalid : filter_valid (gather_outcomes w s0.project_id
          (spec.features.map feature_node))
        = spec.features.enum.map (fun p => rres p.1) := by
      rw [gather_outcomes_map_node, filter_valid_map]
      apply filterMap_eq_map_of
      intro p hp
      obtain ⟨hplt, hpv⟩ := enum_mem_facts hp
      have hgd : spec.features.getD p.1 "" = p.2 := by
        rw [List.getD_eq_getElem?_getD, hpv]
        rfl
      rw [← hgd, hok p.1 hplt]
    rw [hvalid]
    have hfeat : (spec.features.enum.map (fun p => rres p.1)).map (fun r => r.feature_name)
        = spec.features.map some := by
      rw [List.map_map]
      have hvals : spec.features.enum.map ((fun r => r.feature_name) ∘ (fun p => rres p.1))
          = spec.features.enum.map (fun p => some p.2) := by
        apply List.map_congr_left
        intro p hp
        obtain ⟨hplt, hpv⟩ := enum_mem_facts hp
        show (rres p.1).feature_name = some p.2
        rw [hname p.1 hplt, hpv]
      rw [hvals]
      have hcomp : spec.features.enum.map (fun p => some p.2)
          = (spec.features.enum.map Prod.snd).map some := by
        rw [List.map_map]
        rfl
      rw [hcomp]
      show ((List.enumFrom 0 spec.features).map Prod.snd).map some = _
      rw [List.enumFrom_map_snd]
    rw [hfeat, enum_map_fst_fun]

/-- Witness for C4: three features, completion order 2, 0, 1 — the
placement is still input order and the engine lists the features in
input order. -/
theorem order_stable_output_witness :
    ([2, 0, 1] : List Nat).Perm (List.range 3)
    ∧ (execute_plan (fun _ => Except.ok ⟨some "p1", none⟩)
          (fun j p => Except.ok ⟨none, p.feature_name⟩)
          (build_plan { features := ["a", "b", "c"] })).2
      = Except.ok
          { project_id := some "p1"
            features := (["a", "b", "c"] : List String).map some
            phase_results := [[⟨some "p1", none⟩], (List.range 3).map
              (fun j => ⟨none, some ((["a", "b", "c"] : List String).getD j "")⟩)] } := by
  refine ⟨by decide, ?_⟩
  exact (order_stable_output { features := ["a", "b", "c"] }
    (fun _ => Except.ok ⟨some "p1", none⟩)
    (fun j p => Except.ok ⟨none, p.feature_name⟩)
    ⟨some "p1", none⟩
    (fun j => ⟨none, some ((["a", "b", "c"] : List String).getD j "")⟩) [2, 0, 1]
    rfl (by decide) (by decide) (by decide)).2

/-!
## Claim theorems: metrics, validation, builder, dispatch (C6-C10)
-/

/-- C6: the metrics estimator computes
`estimated_sequential_seconds = 900 + features_count * 1800` and
`speedup = estimated / duration` when `duration > 0`, else `1.0`. -/
theorem metrics_formula (spec : ProjectSpec) (duration : ℚ) (agents_used : Nat) :
    (generate_metrics spec duration agents_used).estimated_sequential_seconds
        = 900 + (spec.features.length : ℚ) * 1800
    ∧ (0 < duration → (generate_metrics spec duration agents_used).speedup
        = (900 + (spec.features.length : ℚ) * 1800) / duration)
    ∧ (¬ 0 < duration → (generate_metrics spec duration agents_used).speedup = 1) := by
  refine ⟨?_, ?_, ?_⟩
  · show (15 * 60 + (spec.features.length : ℚ) * 30 * 60 : ℚ)
        = 900 + (spec.features.length : ℚ) * 1800
    ring
  · intro h
    show (if 0 < duration then
        (15 * 60 + (spec.features.length : ℚ) * 30 * 60 : ℚ) / duration else 1)
      = (900 + (spec.features.length : ℚ) * 1800) / duration
    rw [if_pos h]
    ring_nf
  · intro h
    show (if 0 < duration then
        (15 * 60 + (spec.features.length : ℚ) * 30 * 60 : ℚ) / duration else 1) = 1
    rw [if_neg h]

/-- Witness for C6: two features and 900 seconds give a 4500-second
estimate and speedup exactly 5; duration 0 gives speedup 1. -/
theorem metrics_formula_witness :
    (0 : ℚ) < 900
    ∧ (generate_metrics { features := ["a", "b"] } 900 3).speedup = 5
    ∧ (generate_metrics { features := ["a", "b"] } 900 3).estimated_sequential_seconds = 4500
    ∧ (generate_metrics { features := ["a", "b"] } 0 3).speedup = 1 := by
  have h1 := metrics_formula { features := ["a", "b"] } 900 3
  have h2 := metrics_formula { features := ["a", "b"] } 0 3
  refine ⟨by norm_num, ?_, ?_, ?_⟩
  · rw [h1.2.1 (by norm_num)]
    norm_num
  · rw [h1.1]
    norm_num
  · exact h2.2.2 (by norm_num)

lemma validate_fold_general (agents : List (String × AgentStatus)) :
    ∀ v0 : ValidationReport,
      agents.foldl (fun v a =>
        if a.2 ≠ AgentStatus.completed then
          { v with all_agents_succeeded := false, failed_agent := some a.1 }
        else v) v0
      = { project_created := v0.project_created
          features_completed := v0.features_completed
          all_agents_succeeded := v0.all_agents_succeeded
            && agents.all (fun p => decide (p.2 = AgentStatus.completed))
          failed_agent := ((agents.reverse.find?
              (fun p => decide (p.2 ≠ AgentStatus.completed))).map Prod.fst).or
            v0.failed_agent } := by
  induction agents with
  | nil =>
    intro v0
    simp
  | cons a as ih =>
    intro v0
    rw [List.foldl_cons, ih]
    by_cases ha : a.2 = AgentStatus.completed
    · have hstep : (if a.2 ≠ AgentStatus.completed then
          { v0 with all_agents_succeeded := false, failed_agent := some a.1 }
        else v0) = v0 := by
        rw [if_neg (by simp [ha])]
      rw [hstep]
      have hq : (decide (a.2 ≠ AgentStatus.completed)) = false := by simp [ha]
      have ha2 : (decide (a.2 = AgentStatus.completed)) = true := by simp [ha]
      simp only [List.all_cons, List.reverse_cons, List.find?_append, List.find?_cons,
        List.find?_nil, hq, ha2, Bool.true_and, Option.or_none]
    · have hstep : (if a.2 ≠ AgentStatus.completed then
          { v0 with all_agents_succeeded := false, failed_agent := some a.1 }
        else v0)
          = { v0 with all_agents_succeeded := false, failed_agent := some a.1 } := by
        rw [if_pos ha]
      rw [hstep]
      have hq : (decide (a.2 ≠ AgentStatus.completed)) = true := by simp [ha]
      have ha2 : (decide (a.2 = AgentStatus.completed)) = false := by simp [ha]
      simp only [List.all_cons, List.reverse_cons, List.find?_append, List.find?_cons,
        List.find?_nil, hq, ha2, Bool.false_and, Bool.and_false]
      cases hfind : as.reverse.find? (fun p => decide (p.2 ≠ AgentStatus.completed)) with
      | none => simp [hfind]
      | some p => simp [hfind]

/-- C7 (amended): `all_agents_succeeded` is true iff every agent record
in the registry has status `completed`, and when it is false the
identifier recorded as `failed_agent` is the *last* agent, in registry
iteration order, whose status is not completed (the loop overwrites the
key on every non-completed agent); `project_created` and
`features_completed` summarise the execution result.  The validator is a
pure function of the records — it mutates nothing. -/
theorem validator_flags (er : ExecResults) (agents : List (String × AgentStatus)) :
    ((validate_results er agents).all_agents_succeeded = true
        ↔ ∀ p ∈ agents, p.2 = AgentStatus.completed)
    ∧ (validate_results er agents).failed_agent
        = (agents.reverse.find? (fun p => decide (p.2 ≠ AgentStatus.completed))).map Prod.fst
    ∧ (validate_results er agents).project_created = er.project_id.isSome
    ∧ (validate_results er agents).features_completed = er.features.length := by
  have h := validate_fold_general agents
    { project_created := er.project_id.isSome
      features_completed := er.features.length
      all_agents_succeeded := true }
  have hv : validate_results er agents
      = { project_created := er.project_id.isSome
          features_completed := er.features.length
          all_agents_succeeded :=
            agents.all (fun p => decide (p.2 = AgentStatus.completed))
          failed_agent := (agents.reverse.find?
              (fun p => decide (p.2 ≠ AgentStatus.completed))).map Prod.fst } := by
    rw [validate_results, h]
    simp
  rw [hv]
  refine ⟨?_, rfl, rfl, rfl⟩
  simp only [List.all_eq_true, decide_eq_true_eq]

/-- Counterexample to C7 as stated: with two non-completed agents the
code records the second one (last in iteration order) as `failed_agent`,
not the first. -/
theorem validator_failed_agent_cex :
    (validate_results {} [("gsa-1", AgentStatus.error), ("gfa-2", AgentStatus.error)]).failed_agent
        = some "gfa-2"
    ∧ ([("gsa-1", AgentStatus.error), ("gfa-2", AgentStatus.error)].find?
        (fun p => decide (p.2 ≠ AgentStatus.completed))).map Prod.fst = some "gsa-1" := by
  decide

/-- C8 (amended): the top-level `validate` wrapper returns true iff the
project identifier is truthy — present *and* non-empty, by Python
truthiness, not merely non-None — and at least one feature completed;
the outcome is independent of the `validation` report (and so of
`all_agents_succeeded`). -/
theorem validate_wrapper_truthy (r : TopResult) :
    (validate r = true
        ↔ ((∃ s, r.project_id = some s ∧ s ≠ "") ∧ r.features_completed ≠ []))
    ∧ (∀ v : ValidationReport, validate { r with validation := v } = validate r) := by
  constructor
  · cases hp : r.project_id with
    | none => simp [validate, pyTruthy, hp]
    | some s =>
      by_cases hs : s = ""
      · subst hs
        simp [validate, pyTruthy, hp]
      · simp [validate, pyTruthy, hp, hs, List.isEmpty_iff]
  · intro v
    rfl

/-- Counterexample to C8 as stated: a result whose `project_id` is the
empty string (not None) with one completed feature fails `validate`
although the claim's formula `(project_id is not None) AND (features
nonempty)` holds. -/
theorem validate_wrapper_cex :
    validate { project_id := some "", features_completed := [some "auth"],
               validation := { project_created := true, features_completed := 1,
                               all_agents_succeeded := true } } = false
    ∧ ((some "" : Option String) ≠ none)
    ∧ (0 : Nat) < ([some "auth"] : List (Option String)).length := by
  refine ⟨rfl, by simp, by decide⟩

/-- C9 (amended): the builder never fails — it performs no validation at
all.  For every `ProjectSpec`, including `max_parallel < 1` and an empty
feature list, it produces exactly two phases: a non-parallel `"Setup"`
phase with one task and a parallel `"Features"` phase with one task per
feature, preserving input order (an empty feature list yields an empty
Features phase). -/
theorem build_plan_total_two_phases (spec : ProjectSpec) :
    (build_plan spec).phases
      = [ { name := "Setup", parallel := false, max_parallel := none,
            tasks := [setup_node spec] },
          { name := "Features", parallel := true, max_parallel := some spec.max_parallel,
            tasks := spec.features.map feature_node } ]
    ∧ (spec.features.map feature_node).map (fun t => t.feature_name)
        = spec.features.map some := by
  refine ⟨rfl, ?_⟩
  rw [List.map_map]
  apply List.map_congr_left
  intro a _
  rfl

/-- Counterexample to C9 as stated: with `max_parallel = 0 < 1` the
builder does not fail with `InvalidSpecError` (no such error exists in
the code; the builder has no failure path) — it returns a normal
two-phase plan. -/
theorem build_plan_no_failure_cex :
    build_plan { features := ["auth"], max_parallel := 0 }
      = { phases := [ { name := "Setup", parallel := false, max_parallel := none,
                        tasks := [setup_node { features := ["auth"], max_parallel := 0 }] },
                      { name := "Features", parallel := true, max_parallel := some 0,
                        tasks := [feature_node "auth"] } ] } := rfl

/-- C10 (amended): an unrecognized worker-type tag raises no structural
error.  Sequential execution silently skips every task whose tag is not
`"GenesisSetupAgent"` (producing no worker, no result and no exception),
and parallel execution constructs a feature worker for every task
regardless of its tag (dispatch to the default worker). -/
theorem unknown_worker_type_dispatch :
    (∀ (setupExec : TaskPayload → Except String ResultRecord) (tasks : List TaskNode)
        (reg : List SpawnEvent) (acc : List ResultRecord),
        (∀ t ∈ tasks, t.agent ≠ "GenesisSetupAgent") →
        execute_sequential setupExec tasks reg acc = (reg, Except.ok acc))
    ∧ (∀ (w : Nat → TaskPayload → Except String ResultRecord) (tasks : List TaskNode)
        (pid : Option String) (reg : List SpawnEvent),
        ((execute_parallel w tasks pid reg).1).length = reg.length + tasks.length) := by
  constructor
  · intro setupExec tasks
    induction tasks with
    | nil =>
      intro reg acc _
      rfl
    | cons t rest ih =>
      intro reg acc h
      have ht := h t (List.mem_cons_self t rest)
      simp only [execute_sequential, ht, if_false]
      exact ih reg acc (fun x hx => h x (List.mem_cons_of_mem t hx))
  · intro w tasks pid reg
    show (spawn_feature_workers tasks reg).length = reg.length + tasks.length
    induction tasks generalizing reg with
    | nil => simp [spawn_feature_workers]
    | cons t rest ih =>
      rw [spawn_feature_workers, ih]
      simp
      omega

/-- Witness for C10 (amended) at a concrete unknown-tag task. -/
theorem unknown_worker_type_dispatch_witness :
    (∀ t ∈ ([{ agent := "UnknownWorker" }] : List TaskNode), t.agent ≠ "GenesisSetupAgent")
    ∧ execute_sequential (fun _ => Except.ok ({} : ResultRecord))
        [{ agent := "UnknownWorker" }] [] [] = ([], Except.ok [])
    ∧ ((execute_parallel (fun _ _ => Except.ok ({} : ResultRecord))
        [{ agent := "UnknownWorker" }] none []).1).length = 0 + 1 := by
  refine ⟨by decide, ?_, ?_⟩
  · exact unknown_worker_type_dispatch.1 (fun _ => Except.ok ({} : ResultRecord))
      [{ agent := "UnknownWorker" }] [] [] (by decide)
  · have h := unknown_worker_type_dispatch.2 (fun _ _ => Except.ok ({} : ResultRecord))
      [{ agent := "UnknownWorker" }] none []
    simpa using h

/-- Counterexample to C10 as stated: a plan whose Features phase holds a
task with unknown tag `"SomeUnknownWorkerType"` runs to completion —
the engine raises nothing and dispatches the task to the default
feature worker, whose result appears in the output. -/
theorem unknown_worker_type_cex :
    (execute_plan (fun _ => Except.ok { project_id := some "p1" })
        (fun _ _ => Except.ok { feature_name := some "done" })
        { phases := [ { name := "Setup", parallel := false, tasks := [setup_node {}] },
                      { name := "Features", parallel := true,
                        tasks := [{ agent := "SomeUnknownWorkerType" }] } ] }).2
      = Except.ok { project_id := some "p1", features := [some "done"],
                    phase_results := [[{ project_id := some "p1" }],
                                      [{ feature_name := some "done" }]] } := rfl
